import Mathlib

set_option maxRecDepth 100000

/-!
A shallow embedding of the JSON flattening and SQL/CSV generation core of the
infernalconversion repository (src/server/lib/json-parser.ts and
src/server/lib/sql-generator.ts), together with theorems checking the
specification's claims against the code.

Modelling conventions. A JavaScript number is represented by exactly the
attributes the code observes: whether it is a finite integer, whether it is
finite at all, and its decimal string form. JavaScript objects are
insertion-ordered association lists; property assignment obj[k] = v keeps the
position of an existing key and appends a new one; object spread folds the
second object's entries over the first with the same rule. The value
`undefined` arises in the code only when a record misses a column, which is
modelled by Option. String length is the number of characters.
-/

/-- A JavaScript number, abstracted to the attributes the code inspects:
Number.isInteger, Number.isFinite and its toString form. -/
inductive JSNum where
  | int (n : Int)
  | nonint (form : String)
  | nan
  | posinf
  | neginf
deriving DecidableEq

/-- Number.isFinite -/
def JSNum.isFinite : JSNum → Bool
  | .int _ => true
  | .nonint _ => true
  | _ => false

/-- Number.isInteger -/
def JSNum.isInteger : JSNum → Bool
  | .int _ => true
  | _ => false

/-- Number.prototype.toString -/
def JSNum.toText : JSNum → String
  | .int n => toString n
  | .nonint f => f
  | .nan => "NaN"
  | .posinf => "Infinity"
  | .neginf => "-Infinity"

/-- A parsed JSON value (objects keep insertion order). -/
inductive JSON where
  | null
  | bool (b : Bool)
  | num (n : JSNum)
  | str (s : String)
  | arr (items : List JSON)
  | obj (fields : List (String × JSON))

/-- A flat record: insertion-ordered mapping from column name to value. -/
abbrev Record := List (String × JSON)

/-- Object.prototype.hasOwnProperty -/
def hasKey (r : Record) (k : String) : Bool := r.any (fun p => p.1 == k)

/-- Property read r[k]; none models `undefined` for a missing key. -/
def lookupKey (r : Record) (k : String) : Option JSON :=
  (r.find? (fun p => p.1 == k)).map (fun p => p.2)

/-- Property assignment r[k] = v: update in place if the key exists,
otherwise append at the end (JavaScript insertion-order semantics). -/
def setKey (r : Record) (k : String) (v : JSON) : Record :=
  if hasKey r k then r.map (fun p => if p.1 == k then (p.1, v) else p)
  else r ++ [(k, v)]

/-- Object spread: fold the entries of `extra` over `base` with
assignment semantics. -/
def spreadInto (base extra : Record) : Record :=
  extra.foldl (fun acc p => setKey acc p.1 p.2) base

/-- The merge loop of json-parser.ts lines 116-121: copy fields of `r` into
`base`, skipping any key `base` already has. -/
def mergeNew (base r : Record) : Record :=
  r.foldl (fun acc p => if hasKey acc p.1 then acc else acc ++ [p]) base

mutual

/-- JavaScript String(value): primitives print their usual form, arrays print
like Array.prototype.toString (comma join, null elements empty), plain objects
print "[object Object]". -/
def jsToString : JSON → String
  | .null => "null"
  | .bool b => if b then "true" else "false"
  | .num n => n.toText
  | .str s => s
  | .arr items => joinToString items
  | .obj _ => "[object Object]"

/-- Array.prototype.toString body: elements joined with commas, null rendered
as the empty string. -/
def joinToString : List JSON → String
  | [] => ""
  | [JSON.null] => ""
  | [x] => jsToString x
  | JSON.null :: rest => "," ++ joinToString rest
  | x :: rest => jsToString x ++ "," ++ joinToString rest

end

/-- One hexadecimal digit (lower case). -/
def hexDigit (n : Nat) : Char :=
  if n < 10 then Char.ofNat (48 + n) else Char.ofNat (87 + n)

/-- Four hexadecimal digits. -/
def hex4 (n : Nat) : String :=
  String.mk [hexDigit (n / 4096 % 16), hexDigit (n / 256 % 16),
             hexDigit (n / 16 % 16), hexDigit (n % 16)]

/-- JSON.stringify escaping of one character inside a string literal. -/
def escapeJSONChar (c : Char) : String :=
  if c == '"' then "\\\""
  else if c == '\\' then "\\\\"
  else if c == '\n' then "\\n"
  else if c == '\r' then "\\r"
  else if c == '\t' then "\\t"
  else if c.toNat == 8 then "\\b"
  else if c.toNat == 12 then "\\f"
  else if c.toNat < 32 then "\\u" ++ hex4 c.toNat
  else String.singleton c

/-- JSON string literal for s. -/
def jsonQuote (s : String) : String :=
  "\"" ++ String.join (s.data.map escapeJSONChar) ++ "\""

mutual

/-- JSON.stringify (compact form, as called with a single argument). -/
def jsonStringify : JSON → String
  | .null => "null"
  | .bool b => if b then "true" else "false"
  | .num n => if n.isFinite then n.toText else "null"
  | .str s => jsonQuote s
  | .arr items => "[" ++ stringifyList items ++ "]"
  | .obj fs => "\x7b" ++ stringifyFields fs ++ "\x7d"

/-- Comma-joined stringified array elements. -/
def stringifyList : List JSON → String
  | [] => ""
  | [x] => jsonStringify x
  | x :: rest => jsonStringify x ++ "," ++ stringifyList rest

/-- Comma-joined stringified object members. -/
def stringifyFields : List (String × JSON) → String
  | [] => ""
  | [(k, v)] => jsonQuote k ++ ":" ++ jsonStringify v
  | (k, v) :: rest => jsonQuote k ++ ":" ++ jsonStringify v ++ "," ++ stringifyFields rest

end

/-- Is the value the JSON null? -/
def JSON.isNull : JSON → Bool
  | .null => true
  | _ => false

/-- The allPrimitives element test of json-parser.ts lines 46-52 and 88-94:
null, string, number or boolean. -/
def isPrimOrNull : JSON → Bool
  | .null => true
  | .bool _ => true
  | .num _ => true
  | .str _ => true
  | .arr _ => false
  | .obj _ => false

/-- Join of a primitive-only array (json-parser.ts lines 56 and 97): filter
out nulls, render each element with String(), join with comma-space. -/
def joinPrims (items : List JSON) : String :=
  String.intercalate ", " ((items.filter (fun x => !x.isNull)).map jsToString)

/-- The joined column name prefix_key, or just the key when the prefix is
empty (json-parser.ts line 77). -/
def joinKey (pfx key : String) : String :=
  if pfx == "" then key else pfx ++ "_" ++ key

mutual

/-- json-parser.ts explodeObject (lines 28-134). -/
def explodeObject (j : JSON) (pfx : String) (parentContext : Record)
    (sourcePath : String) (arrayLevel : Nat) : List Record :=
  match j with
  | .null => [setKey parentContext (if pfx == "" then "value" else pfx) JSON.null]
  | .bool b => [setKey parentContext (if pfx == "" then "value" else pfx) (.bool b)]
  | .num n => [setKey parentContext (if pfx == "" then "value" else pfx) (.num n)]
  | .str s => [setKey parentContext (if pfx == "" then "value" else pfx) (.str s)]
  | .arr items =>
      if items.isEmpty then [setKey parentContext pfx JSON.null]
      else if items.all isPrimOrNull then
        [setKey parentContext pfx (.str (joinPrims items))]
      else
        let allRecords := explodeItems items 0 pfx parentContext sourcePath arrayLevel
        if allRecords.isEmpty then [parentContext] else allRecords
  | .obj fs =>
      let be := explodeEntries fs pfx sourcePath arrayLevel parentContext []
      if be.2.isEmpty then [be.1] else be.2.map (fun r => spreadInto be.1 r)

/-- The forEach loop over the items of an object-containing array
(json-parser.ts lines 60-67); idx is the running element index. -/
def explodeItems (items : List JSON) (idx : Nat) (pfx : String)
    (parentContext : Record) (sourcePath : String) (arrayLevel : Nat) : List Record :=
  match items with
  | [] => []
  | item :: rest =>
      let newSourcePath := if sourcePath == "" then (if pfx == "" then "root" else pfx) else sourcePath
      let indexKey := if pfx == "" then "_index_level_" ++ toString arrayLevel else pfx ++ "_index"
      explodeObject item pfx (setKey parentContext indexKey (.num (.int (Int.ofNat idx))))
          newSourcePath (arrayLevel + 1)
        ++ explodeItems rest (idx + 1) pfx parentContext sourcePath arrayLevel

/-- The for-of loop over object entries (json-parser.ts lines 73-124),
threading the mutable baseContext and nestedExplosions accumulators. -/
def explodeEntries (entries : List (String × JSON)) (pfx : String)
    (sourcePath : String) (arrayLevel : Nat) (base : Record)
    (nested : List Record) : Record × List Record :=
  match entries with
  | [] => (base, nested)
  | (key, value) :: rest =>
      let fullKey := joinKey pfx key
      match value with
      | JSON.null =>
          explodeEntries rest pfx sourcePath arrayLevel (setKey base fullKey JSON.null) nested
      | JSON.bool b =>
          explodeEntries rest pfx sourcePath arrayLevel (setKey base fullKey (.bool b)) nested
      | JSON.num n =>
          explodeEntries rest pfx sourcePath arrayLevel (setKey base fullKey (.num n)) nested
      | JSON.str s =>
          explodeEntries rest pfx sourcePath arrayLevel (setKey base fullKey (.str s)) nested
      | JSON.arr items =>
          if items.isEmpty then
            explodeEntries rest pfx sourcePath arrayLevel (setKey base fullKey JSON.null) nested
          else if items.all isPrimOrNull then
            explodeEntries rest pfx sourcePath arrayLevel
              (setKey base fullKey (.str (joinPrims items))) nested
          else
            let newSourcePath := if sourcePath == "" then fullKey else sourcePath
            let arrayRecords := explodeObject (JSON.arr items) fullKey base newSourcePath (arrayLevel + 1)
            explodeEntries rest pfx sourcePath arrayLevel base (nested ++ arrayRecords)
      | JSON.obj ofs =>
          let nestedRecords := explodeObject (JSON.obj ofs) fullKey base sourcePath arrayLevel
          if nestedRecords.length > 1 then
            explodeEntries rest pfx sourcePath arrayLevel base (nested ++ nestedRecords)
          else
            match nestedRecords with
            | [r] => explodeEntries rest pfx sourcePath arrayLevel (mergeNew base r) nested
            | _ => explodeEntries rest pfx sourcePath arrayLevel base nested

end

mutual

/-- json-parser.ts getNestingLevel (lines 11-22). -/
def getNestingLevel (j : JSON) (currentLevel : Nat) : Nat :=
  match j with
  | .null => currentLevel
  | .bool _ => currentLevel
  | .num _ => currentLevel
  | .str _ => currentLevel
  | .arr items => levelItems items currentLevel currentLevel
  | .obj fs => levelFields fs currentLevel currentLevel

/-- The loop of getNestingLevel over array elements; maxLevel accumulates. -/
def levelItems (items : List JSON) (currentLevel maxLevel : Nat) : Nat :=
  match items with
  | [] => maxLevel
  | x :: rest => levelItems rest currentLevel (max maxLevel (getNestingLevel x (currentLevel + 1)))

/-- The loop of getNestingLevel over object values; maxLevel accumulates. -/
def levelFields (fs : List (String × JSON)) (currentLevel maxLevel : Nat) : Nat :=
  match fs with
  | [] => maxLevel
  | p :: rest => levelFields rest currentLevel (max maxLevel (getNestingLevel p.2 (currentLevel + 1)))

end

/-- The result shape of parseAndFlattenJSON. -/
structure ParsedJSON where
  data : List Record
  maxNestingLevel : Nat
  objectCount : Nat

/-- parseAndFlattenJSON (json-parser.ts lines 7-144) after the JSON.parse
step that the caller performs: depth computation plus explosion. -/
def flatten (parsed : JSON) : ParsedJSON :=
  let records := explodeObject parsed "" [] "" 0
  { data := records
    maxNestingLevel := getNestingLevel parsed 0
    objectCount := records.length }

/-- sql-generator.ts escapeIdentifier (lines 1-4): wrap in double quotes,
double internal double quotes. -/
def escapeIdentifier (identifier : String) : String :=
  "\"" ++ String.join (identifier.data.map
    (fun c => if c == '"' then "\"\"" else String.singleton c)) ++ "\""

/-- Membership in the character class [A-Za-z0-9_]. -/
def isWordChar (c : Char) : Bool :=
  ('a' ≤ c && c ≤ 'z') || ('A' ≤ c && c ≤ 'Z') || ('0' ≤ c && c ≤ '9') || c == '_'

/-- The table-name sanitization of sql-generator.ts line 71: every character
outside [A-Za-z0-9_] becomes an underscore. -/
def sanitizeTableName (tableName : String) : String :=
  String.mk (tableName.data.map (fun c => if isWordChar c then c else '_'))

/-- The accumulator of the value-classification loop of inferSQLType
(sql-generator.ts lines 7-12). -/
structure TypeProfile where
  hasNull : Bool
  hasNumber : Bool
  hasBoolean : Bool
  hasString : Bool
  allIntegers : Bool
  maxLength : Nat

/-- Initial loop state (lines 7-12). -/
def initProfile : TypeProfile :=
  { hasNull := false, hasNumber := false, hasBoolean := false,
    hasString := false, allIntegers := true, maxLength := 0 }

/-- One iteration of the classification loop (lines 14-38); none models a
record that misses the column, i.e. the JavaScript undefined. -/
def stepProfile (p : TypeProfile) (v : Option JSON) : TypeProfile :=
  match v with
  | none => { p with hasNull := true }
  | some JSON.null => { p with hasNull := true }
  | some (JSON.bool _) => { p with hasBoolean := true }
  | some (JSON.num n) =>
      { p with hasNumber := true,
               allIntegers := if !n.isInteger || !n.isFinite then false else p.allIntegers }
  | some (JSON.str s) =>
      { p with hasString := true, maxLength := max p.maxLength s.length }
  | some (JSON.arr items) =>
      { p with hasString := true,
               maxLength := max p.maxLength (jsToString (JSON.arr items)).length }
  | some (JSON.obj fs) =>
      { p with hasString := true,
               maxLength := max p.maxLength (jsToString (JSON.obj fs)).length }

/-- sql-generator.ts inferSQLType (lines 6-60). -/
def inferSQLType (columnName : String) (values : List (Option JSON)) : String :=
  let p := values.foldl stepProfile initProfile
  if p.hasBoolean && !p.hasNumber && !p.hasString then "BOOLEAN"
  else if p.hasNumber && !p.hasString then
    (if p.allIntegers then "BIGINT" else "DOUBLE PRECISION")
  else if p.maxLength == 0 then "TEXT"
  else if p.maxLength ≤ 255 then "VARCHAR(255)"
  else "TEXT"

/-- The single-quote character, written through its code point. -/
def squote : Char := Char.ofNat 39

/-- Double every single quote (the global replace on sql-generator.ts
line 121). -/
def doubleSQuotes (s : String) : String :=
  String.join (s.data.map
    (fun c => if c == squote then String.mk [squote, squote] else String.singleton c))

/-- The rendering of one literal inside a VALUES list
(sql-generator.ts lines 102-123). -/
def sqlValueLiteral (v : Option JSON) : String :=
  match v with
  | none => "NULL"
  | some JSON.null => "NULL"
  | some (JSON.num n) => if !n.isFinite then "NULL" else n.toText
  | some (JSON.bool b) => if b then "TRUE" else "FALSE"
  | some w => String.singleton squote ++ doubleSQuotes (jsToString w) ++ String.singleton squote

/-- The Set-based column collection of generateSQL (lines 73-78); a JS Set
iterates in insertion order. -/
def collectSQLColumns (data : List Record) : List String :=
  data.foldl (fun s r => r.foldl (fun s2 p => if s2.contains p.1 then s2 else s2 ++ [p.1]) s) []

/-- sql-generator.ts generateSQL (lines 62-132); `now` stands for the
toISOString text of the generation instant, supplied by the caller's clock. -/
def generateSQL (data : List Record) (tableName : String) (now : String) : String :=
  if data.length == 0 then "-- No data to convert"
  else
    let safeTableName := sanitizeTableName tableName
    let columns := collectSQLColumns data
    let columnTypes := columns.map
      (fun col => (col, inferSQLType col (data.map (fun r => lookupKey r col))))
    let createTableLines :=
      ("CREATE TABLE " ++ escapeIdentifier safeTableName ++ " (")
        :: columns.enum.map (fun ic =>
            "  " ++ escapeIdentifier ic.2 ++ " " ++ (List.lookup ic.2 columnTypes).getD "TEXT"
              ++ (if ic.1 < columns.length - 1 then "," else ""))
    let createTableSQL := String.intercalate "\n" (createTableLines ++ [");"])
    let insertStatements := data.map (fun r =>
      let values := columns.map (fun col => sqlValueLiteral (lookupKey r col))
      let columnList := String.intercalate ", " (columns.map escapeIdentifier)
      "INSERT INTO " ++ escapeIdentifier safeTableName ++ " (" ++ columnList
        ++ ") VALUES (" ++ String.intercalate ", " values ++ ");")
    "-- SQL Generated: " ++ now ++ "\n-- Table: " ++ safeTableName ++ "\n-- Records: "
      ++ toString data.length ++ "\n\n" ++ createTableSQL ++ "\n\n"
      ++ String.intercalate "\n" insertStatements

/-- The Map-based header collection of generateCSV (json-parser.ts lines
150-160): a map from column name to its first-seen position, in insertion
order. -/
def collectColumnMap (data : List Record) : List (String × Nat) :=
  data.foldl (fun m r => r.foldl
    (fun m2 p => if m2.any (fun q => q.1 == p.1) then m2 else m2 ++ [(p.1, m2.length)]) m) []

/-- The header list of generateCSV (line 160). -/
def collectCSVHeaders (data : List Record) : List String :=
  (collectColumnMap data).map (fun p => p.1)

/-- The string-conversion step of escapeCSVValue (lines 168-174): objects and
arrays through JSON.stringify, everything else through String(). -/
def csvString (v : JSON) : String :=
  match v with
  | .arr items => jsonStringify (.arr items)
  | .obj fs => jsonStringify (.obj fs)
  | w => jsToString w

/-- The quoting condition of escapeCSVValue (lines 176-182): the string form
contains a comma, double quote, line feed or carriage return, or its first
character is =, +, - or @. -/
def needsQuoting (s : String) : Bool :=
  s.data.contains ',' || s.data.contains '"' || s.data.contains '\n' || s.data.contains '\r'
    || (match s.data with
        | [] => false
        | c :: _ => c == '=' || c == '+' || c == '-' || c == '@')

/-- Double every double quote (line 186). -/
def doubleDQuotes (s : String) : String :=
  String.join (s.data.map (fun c => if c == '"' then "\"\"" else String.singleton c))

/-- json-parser.ts escapeCSVValue (lines 163-191). -/
def escapeCSVValue (v : Option JSON) : String :=
  match v with
  | none => ""
  | some JSON.null => ""
  | some w =>
      let s := csvString w
      if needsQuoting s then "\"" ++ doubleDQuotes s ++ "\"" else s

/-- json-parser.ts generateCSV (lines 145-205). -/
def generateCSV (data : List Record) : String :=
  if data.length == 0 then ""
  else
    let headers := collectCSVHeaders data
    let headerRow := String.intercalate ","
      (headers.map (fun h => escapeCSVValue (some (JSON.str h))))
    let dataRows := data.map (fun r =>
      String.intercalate "," (headers.map (fun h => escapeCSVValue (lookupKey r h))))
    String.intercalate "\n" (headerRow :: dataRows)

/-- Is the value a container (object or array)? -/
def isContainer : JSON → Bool
  | .arr _ => true
  | .obj _ => true
  | _ => false

mutual

/-- The depth rule exactly as the claim words it: the root starts at 0,
visiting into a child container increments depth by 1, a primitive or null
has its parent's depth, and the result is the maximum depth seen over the
whole tree. Expressed relative to the node at hand: a container child adds
one plus its own relative depth, a primitive child stays at the parent's
depth and adds nothing. -/
def specDepthRule : JSON → Nat
  | .null => 0
  | .bool _ => 0
  | .num _ => 0
  | .str _ => 0
  | .arr items => ruleItems items
  | .obj fs => ruleFields fs

/-- Maximum rule-depth contribution of the children of an array. -/
def ruleItems : List JSON → Nat
  | [] => 0
  | x :: rest => max (if isContainer x then 1 + specDepthRule x else 0) (ruleItems rest)

/-- Maximum rule-depth contribution of the children of an object. -/
def ruleFields : List (String × JSON) → Nat
  | [] => 0
  | p :: rest => max (if isContainer p.2 then 1 + specDepthRule p.2 else 0) (ruleFields rest)

end

mutual

/-- The depth actually computed by the code: visiting into any child
(container or primitive) increments the level by 1; the result is the
maximum level reached, the root sitting at 0. -/
def specDepth : JSON → Nat
  | .null => 0
  | .bool _ => 0
  | .num _ => 0
  | .str _ => 0
  | .arr items => depthItems items
  | .obj fs => depthFields fs

/-- Maximum depth contribution of the children of an array. -/
def depthItems : List JSON → Nat
  | [] => 0
  | x :: rest => max (1 + specDepth x) (depthItems rest)

/-- Maximum depth contribution of the children of an object. -/
def depthFields : List (String × JSON) → Nat
  | [] => 0
  | p :: rest => max (1 + specDepth p.2) (depthFields rest)

end

/-- Every field of the record holds a scalar (null, boolean, number or
string). -/
def ScalarCtx (r : Record) : Prop := ∀ p ∈ r, isPrimOrNull p.2 = true

/-- Is the observed column value a number? -/
def isNumV : Option JSON → Bool
  | some (.num _) => true
  | _ => false

/-- Is the observed column value a boolean? -/
def isBoolV : Option JSON → Bool
  | some (.bool _) => true
  | _ => false

/-- Does the observed column value count as a string for type inference
(a string proper, or an object/array that gets stringified)? -/
def isStringishV : Option JSON → Bool
  | some (.str _) => true
  | some (.arr _) => true
  | some (.obj _) => true
  | _ => false

/-- When the observed value is a number, is it a finite integer? True on
every non-number, so that a column satisfies List.all exactly when every
numeric value is a finite integer. -/
def finiteIntegerIfNum : Option JSON → Bool
  | some (.num n) => n.isInteger && n.isFinite
  | _ => true

/-- Observed string length of a column value: the length of the string
itself, the length of the String() form for objects and arrays, and 0 for
everything else. -/
def observedLen : Option JSON → Nat
  | some (.str s) => s.length
  | some (.arr items) => (jsToString (.arr items)).length
  | some (.obj fs) => (jsToString (.obj fs)).length
  | _ => 0

/-- Maximum observed string length across a column. -/
def specMaxLen (values : List (Option JSON)) : Nat :=
  values.foldl (fun m v => max m (observedLen v)) 0

/-- The inferred SQL type phrased over the whole column, as the (amended)
claim describes it: priority boolean, then numeric, then string, where the
string type is TEXT when the maximum observed length is 0 (no non-null
values, or only empty strings) or above 255, and VARCHAR(255) otherwise. -/
def specInferredType (values : List (Option JSON)) : String :=
  if values.any isBoolV && !values.any isNumV && !values.any isStringishV then "BOOLEAN"
  else if values.any isNumV && !values.any isStringishV then
    (if values.all finiteIntegerIfNum then "BIGINT" else "DOUBLE PRECISION")
  else if specMaxLen values == 0 then "TEXT"
  else if specMaxLen values ≤ 255 then "VARCHAR(255)"
  else "TEXT"

/-- The rendering of one SQL value exactly as the claim enumerates it:
NULL for null or missing, NULL for a non-finite number, the decimal text
form for a finite number, TRUE or FALSE for a boolean, and otherwise a
single-quoted string with internal single quotes doubled and no other
escaping. -/
def specSQLValueRender (v : Option JSON) : String :=
  match v with
  | none => "NULL"
  | some JSON.null => "NULL"
  | some (JSON.num n) => if n.isFinite then n.toText else "NULL"
  | some (JSON.bool b) => if b then "TRUE" else "FALSE"
  | some w => String.singleton squote ++ doubleSQuotes (jsToString w) ++ String.singleton squote

/-- First-seen column order, as the claim words it: walk the records in
order and, within each record, its column names in order, appending every
name not seen before. -/
def specFirstSeen (data : List Record) : List String :=
  data.foldl (fun acc r =>
    (r.map Prod.fst).foldl (fun a k => if a.contains k then a else a ++ [k]) acc) []

mutual

/-- No array occurs anywhere in the value: it is a scalar or an object whose
field values are recursively array-free. -/
def arrayFree : JSON → Bool
  | .null => true
  | .bool _ => true
  | .num _ => true
  | .str _ => true
  | .arr _ => false
  | .obj fs => arrayFreeFields fs

/-- All field values of the entry list are array-free. -/
def arrayFreeFields : List (String × JSON) → Bool
  | [] => true
  | e :: rest => arrayFree e.2 && arrayFreeFields rest

end

/-- The element loop of getNestingLevel computes the running maximum of the
independent child depths. -/
theorem levelItems_eq (items : List JSON)
    (hIH : ∀ x ∈ items, ∀ l, getNestingLevel x l = l + specDepth x) :
    ∀ l m, l ≤ m → levelItems items l m = max m (l + depthItems items) := by
  induction items with
  | nil =>
      intro l m hlm
      rw [levelItems, depthItems]
      omega
  | cons x rest ih =>
      intro l m hlm
      rw [levelItems, hIH x (by simp),
        ih (fun y hy l2 => hIH y (by simp [hy]) l2) l (max m (l + 1 + specDepth x)) (by omega),
        depthItems]
      omega

/-- The field loop of getNestingLevel computes the running maximum of the
independent child depths. -/
theorem levelFields_eq (fs : List (String × JSON))
    (hIH : ∀ p ∈ fs, ∀ l, getNestingLevel p.2 l = l + specDepth p.2) :
    ∀ l m, l ≤ m → levelFields fs l m = max m (l + depthFields fs) := by
  induction fs with
  | nil =>
      intro l m hlm
      rw [levelFields, depthFields]
      omega
  | cons p rest ih =>
      intro l m hlm
      rw [levelFields, hIH p (by simp),
        ih (fun q hq l2 => hIH q (by simp [hq]) l2) l (max m (l + 1 + specDepth p.2)) (by omega),
        depthFields]
      omega

/-- getNestingLevel adds the starting level to the structural depth of the
value. -/
theorem getNestingLevel_eq : ∀ (j : JSON) (l : Nat), getNestingLevel j l = l + specDepth j
  | .null, l => by rw [getNestingLevel, specDepth]; omega
  | .bool b, l => by rw [getNestingLevel, specDepth]; omega
  | .num n, l => by rw [getNestingLevel, specDepth]; omega
  | .str s, l => by rw [getNestingLevel, specDepth]; omega
  | .arr items, l => by
      rw [getNestingLevel, specDepth,
        levelItems_eq items (fun x hx l2 => getNestingLevel_eq x l2) l l (Nat.le_refl l)]
      omega
  | .obj fs, l => by
      rw [getNestingLevel, specDepth,
        levelFields_eq fs (fun p hp l2 => getNestingLevel_eq p.2 l2) l l (Nat.le_refl l)]
      omega
termination_by j _ => sizeOf j
decreasing_by
  · have := List.sizeOf_lt_of_mem hx
    simp only [JSON.arr.sizeOf_spec]
    omega
  · have h1 := List.sizeOf_lt_of_mem hp
    have h2 : sizeOf p.2 < sizeOf p := by
      cases p with
      | mk a b => simp only [Prod.mk.sizeOf_spec]; omega
    simp only [JSON.obj.sizeOf_spec]
    omega


/-- Assignment of a scalar value preserves scalarity of a record. -/
theorem scalarCtx_setKey {r : Record} {k : String} {v : JSON}
    (hr : ScalarCtx r) (hv : isPrimOrNull v = true) : ScalarCtx (setKey r k v) := by
  intro p hp
  rw [setKey] at hp
  split at hp
  · obtain ⟨q, hq, hmap⟩ := List.mem_map.mp hp
    by_cases hqk : (q.1 == k) = true
    · rw [if_pos hqk] at hmap
      rw [← hmap]
      exact hv
    · rw [if_neg hqk] at hmap
      rw [← hmap]
      exact hr q hq
  · rcases List.mem_append.mp hp with h | h
    · exact hr p h
    · rw [List.mem_singleton] at h
      subst h
      exact hv

/-- Concatenation of scalar records is scalar. -/
theorem scalarCtx_append {a b : Record} (ha : ScalarCtx a) (hb : ScalarCtx b) :
    ScalarCtx (a ++ b) := by
  intro p hp
  rcases List.mem_append.mp hp with h | h
  · exact ha p h
  · exact hb p h

/-- The skip-existing merge of two scalar records is scalar. -/
theorem scalarCtx_mergeNew : ∀ (r b : Record), ScalarCtx b → ScalarCtx r →
    ScalarCtx (mergeNew b r) := by
  intro r
  induction r with
  | nil => intro b hb _; exact hb
  | cons e t ih =>
      intro b hb hr
      rw [mergeNew, List.foldl_cons]
      have hstep : ScalarCtx (if hasKey b e.1 then b else b ++ [e]) := by
        split
        · exact hb
        · refine scalarCtx_append hb (fun q hq => ?_)
          rw [List.mem_singleton] at hq
          rw [hq]
          exact hr e (by simp)
      exact ih _ hstep (fun q hq => hr q (by simp [hq]))

/-- The overlay of a scalar record onto a scalar record is scalar. -/
theorem scalarCtx_spreadInto : ∀ (extra base : Record), ScalarCtx base → ScalarCtx extra →
    ScalarCtx (spreadInto base extra) := by
  intro extra
  induction extra with
  | nil => intro base hb _; exact hb
  | cons e t ih =>
      intro base hb he
      rw [spreadInto, List.foldl_cons]
      exact ih _ (scalarCtx_setKey hb (he e (by simp))) (fun q hq => he q (by simp [hq]))

/-- explodeObject never returns the empty list: every branch either returns
an explicit singleton, falls back to the parent context, or maps over a list
it has just checked to be nonempty. -/
theorem explode_ne_nil (j : JSON) (pfx : String) (ctx : Record) (sp : String) (lvl : Nat) :
    explodeObject j pfx ctx sp lvl ≠ [] := by
  cases j with
  | null => simp [explodeObject]
  | bool b => simp [explodeObject]
  | num n => simp [explodeObject]
  | str s => simp [explodeObject]
  | arr items =>
      simp only [explodeObject]
      split
      · simp
      · split
        · simp
        · split
          · simp
          · next h => simpa [List.isEmpty_iff] using h
  | obj fs =>
      simp only [explodeObject]
      split
      · simp
      · next h =>
          simp only [ne_eq, List.map_eq_nil_iff]
          simpa [List.isEmpty_iff] using h

/-- The array-item loop preserves scalarity of all produced records, given
scalarity for each element's own explosion. -/
theorem explodeItems_scalar (items : List JSON)
    (hIH : ∀ x ∈ items, ∀ (pfx : String) (ctx : Record) (sp : String) (lvl : Nat),
      ScalarCtx ctx → ∀ r ∈ explodeObject x pfx ctx sp lvl, ScalarCtx r) :
    ∀ (idx : Nat) (pfx : String) (ctx : Record) (sp : String) (lvl : Nat),
      ScalarCtx ctx → ∀ r ∈ explodeItems items idx pfx ctx sp lvl, ScalarCtx r := by
  induction items with
  | nil =>
      intro idx pfx ctx sp lvl hctx r hr
      simp [explodeItems] at hr
  | cons x t ih =>
      intro idx pfx ctx sp lvl hctx r hr
      simp only [explodeItems] at hr
      rcases List.mem_append.mp hr with h | h
      · refine hIH x (by simp) pfx _ _ _ ?_ r h
        exact scalarCtx_setKey hctx (by rfl)
      · exact ih (fun y hy => hIH y (by simp [hy])) (idx + 1) pfx ctx sp lvl hctx r h

/-- The entry loop preserves scalarity of the accumulated base record and of
all collected nested explosions. -/
theorem explodeEntries_scalar (entries : List (String × JSON))
    (hIH : ∀ e ∈ entries, ∀ (pfx : String) (ctx : Record) (sp : String) (lvl : Nat),
      ScalarCtx ctx → ∀ r ∈ explodeObject e.2 pfx ctx sp lvl, ScalarCtx r) :
    ∀ (pfx sp : String) (lvl : Nat) (base : Record) (nested : List Record),
      ScalarCtx base → (∀ r ∈ nested, ScalarCtx r) →
      ScalarCtx (explodeEntries entries pfx sp lvl base nested).1
      ∧ ∀ r ∈ (explodeEntries entries pfx sp lvl base nested).2, ScalarCtx r := by
  induction entries with
  | nil =>
      intro pfx sp lvl base nested hb hn
      exact ⟨hb, hn⟩
  | cons e t ih =>
      intro pfx sp lvl base nested hb hn
      obtain ⟨key, value⟩ := e
      have hIHt : ∀ e2 ∈ t, ∀ (pfx2 : String) (ctx2 : Record) (sp2 : String) (lvl2 : Nat),
          ScalarCtx ctx2 → ∀ r ∈ explodeObject e2.2 pfx2 ctx2 sp2 lvl2, ScalarCtx r :=
        fun e2 he2 => hIH e2 (by simp [he2])
      cases value with
      | null =>
          simp only [explodeEntries]
          exact ih hIHt pfx sp lvl _ nested (scalarCtx_setKey hb rfl) hn
      | bool b2 =>
          simp only [explodeEntries]
          exact ih hIHt pfx sp lvl _ nested (scalarCtx_setKey hb rfl) hn
      | num n2 =>
          simp only [explodeEntries]
          exact ih hIHt pfx sp lvl _ nested (scalarCtx_setKey hb rfl) hn
      | str s2 =>
          simp only [explodeEntries]
          exact ih hIHt pfx sp lvl _ nested (scalarCtx_setKey hb rfl) hn
      | arr items =>
          simp only [explodeEntries]
          split
          · exact ih hIHt pfx sp lvl _ nested (scalarCtx_setKey hb rfl) hn
          · split
            · exact ih hIHt pfx sp lvl _ nested (scalarCtx_setKey hb rfl) hn
            · refine ih hIHt pfx sp lvl base _ hb (fun r hr => ?_)
              rcases List.mem_append.mp hr with h | h
              · exact hn r h
              · exact hIH (key, JSON.arr items) (by simp) _ base _ _ hb r h
      | obj ofs =>
          simp only [explodeEntries]
          split
          · refine ih hIHt pfx sp lvl base _ hb (fun r hr => ?_)
            rcases List.mem_append.mp hr with h | h
            · exact hn r h
            · exact hIH (key, JSON.obj ofs) (by simp) _ base _ _ hb r h
          · split
            · next r0 heq =>
                refine ih hIHt pfx sp lvl _ nested ?_ hn
                refine scalarCtx_mergeNew r0 base hb ?_
                exact hIH (key, JSON.obj ofs) (by simp) _ base _ _ hb r0 (by rw [heq]; simp)
            · exact ih hIHt pfx sp lvl base nested hb hn

/-- Every record produced by explodeObject from a scalar parent context has
only scalar field values. -/
theorem explodeObject_scalar : ∀ (j : JSON) (pfx : String) (ctx : Record) (sp : String) (lvl : Nat),
    ScalarCtx ctx → ∀ r ∈ explodeObject j pfx ctx sp lvl, ScalarCtx r
  | .null, pfx, ctx, sp, lvl => by
      intro hctx r hr
      rw [explodeObject, List.mem_singleton] at hr
      subst hr
      exact scalarCtx_setKey hctx rfl
  | .bool b, pfx, ctx, sp, lvl => by
      intro hctx r hr
      rw [explodeObject, List.mem_singleton] at hr
      subst hr
      exact scalarCtx_setKey hctx rfl
  | .num n, pfx, ctx, sp, lvl => by
      intro hctx r hr
      rw [explodeObject, List.mem_singleton] at hr
      subst hr
      exact scalarCtx_setKey hctx rfl
  | .str s, pfx, ctx, sp, lvl => by
      intro hctx r hr
      rw [explodeObject, List.mem_singleton] at hr
      subst hr
      exact scalarCtx_setKey hctx rfl
  | .arr items, pfx, ctx, sp, lvl => by
      intro hctx r hr
      simp only [explodeObject] at hr
      split at hr
      · rw [List.mem_singleton] at hr
        subst hr
        exact scalarCtx_setKey hctx rfl
      · split at hr
        · rw [List.mem_singleton] at hr
          subst hr
          exact scalarCtx_setKey hctx rfl
        · split at hr
          · rw [List.mem_singleton] at hr
            subst hr
            exact hctx
          · exact explodeItems_scalar items (fun x hx => explodeObject_scalar x) 0 pfx ctx sp lvl hctx r hr
  | .obj fs, pfx, ctx, sp, lvl => by
      intro hctx r hr
      simp only [explodeObject] at hr
      have hes := explodeEntries_scalar fs (fun e he => explodeObject_scalar e.2) pfx sp lvl ctx []
        hctx (by simp)
      split at hr
      · rw [List.mem_singleton] at hr
        subst hr
        exact hes.1
      · obtain ⟨q, hq, hmap⟩ := List.mem_map.mp hr
        subst hmap
        exact scalarCtx_spreadInto q _ hes.1 (hes.2 q hq)
termination_by j _ _ _ _ => sizeOf j
decreasing_by
  · have := List.sizeOf_lt_of_mem hx
    simp only [JSON.arr.sizeOf_spec]
    omega
  · have h1 := List.sizeOf_lt_of_mem he
    have h2 : sizeOf e.2 < sizeOf e := by
      cases e with
      | mk a b => simp only [Prod.mk.sizeOf_spec]; omega
    simp only [JSON.obj.sizeOf_spec]
    omega

/-- Claim C3: flattening is total (at least one record for every parsed JSON
value, empty containers and null included) and every field value of every
returned record is a scalar - null, boolean, number or string - never a
nested object or array. -/
theorem claim_C3_total_and_scalar :
    ∀ j : JSON, (flatten j).data ≠ []
      ∧ (flatten j).data.all (fun r => r.all (fun p => isPrimOrNull p.2)) = true := by
  intro j
  constructor
  · show explodeObject j "" [] "" 0 ≠ []
    exact explode_ne_nil j "" [] "" 0
  · rw [List.all_eq_true]
    intro r hr
    rw [List.all_eq_true]
    exact explodeObject_scalar j "" [] "" 0 (by simp [ScalarCtx]) r hr

/-- Claim C5: at any position, an array whose elements are all primitives or
nulls produces exactly one record in which that array's field is a single
string, the non-null elements rendered with String() and joined with
comma-space (or null for an empty array); the example {"tags":["x","y",null]}
flattens to the single record with tags = "x, y". -/
theorem claim_C5_primitive_arrays :
    (∀ (xs : List JSON) (pfx : String) (ctx : Record) (sp : String) (lvl : Nat),
        xs.all isPrimOrNull = true →
        explodeObject (JSON.arr xs) pfx ctx sp lvl
          = [setKey ctx pfx (if xs.isEmpty then JSON.null
              else JSON.str (String.intercalate ", "
                ((xs.filter (fun x => !x.isNull)).map jsToString)))])
    ∧ (∀ (k : String) (xs : List JSON), xs.all isPrimOrNull = true →
        (flatten (JSON.obj [(k, JSON.arr xs)])).data
          = [[(k, if xs.isEmpty then JSON.null
              else JSON.str (String.intercalate ", "
                ((xs.filter (fun x => !x.isNull)).map jsToString)))]])
    ∧ (flatten (JSON.obj [("tags", JSON.arr [JSON.str "x", JSON.str "y", JSON.null])])).data
        = [[("tags", JSON.str "x, y")]] := by
  refine ⟨?_, ?_, ?_⟩
  · intro xs pfx ctx sp lvl h
    rw [explodeObject]
    cases xs with
    | nil => simp
    | cons x rest => simp [h, joinPrims]
  · intro k xs h
    cases xs with
    | nil => simp [flatten, explodeObject, explodeEntries, joinKey, setKey, hasKey]
    | cons x rest =>
        simp [flatten, explodeObject, explodeEntries, joinKey, setKey, hasKey, h, joinPrims]
  · simp [flatten, explodeObject, explodeEntries, joinKey, joinPrims, jsToString, isPrimOrNull,
      setKey, hasKey, JSON.isNull, JSNum.toText]
    decide

/-- Witness for claim C5: a concrete primitive-only array at a named field,
with its null filtered out and the number rendered in decimal. -/
theorem claim_C5_primitive_arrays_witness :
    explodeObject (JSON.arr [JSON.num (.int 7), JSON.null]) "nums" [] "" 0
      = [[("nums", JSON.str "7")]] := by
  rw [claim_C5_primitive_arrays.1 [JSON.num (.int 7), JSON.null] "nums" [] "" 0 (by decide)]
  simp [setKey, hasKey, jsToString, JSON.isNull, JSNum.toText]
  decide

/-- Folding the running maximum from any starting value factors through the
maximum from zero. -/
theorem foldMax_shift (values : List (Option JSON)) :
    ∀ a : Nat, values.foldl (fun m v => max m (observedLen v)) a = max a (specMaxLen values) := by
  induction values with
  | nil => intro a; simp [specMaxLen]
  | cons v rest ih =>
      intro a
      rw [specMaxLen, List.foldl_cons, List.foldl_cons, ih, ih]
      omega

/-- The classification loop of inferSQLType computes, field by field, the
column-level predicates of the specification. -/
theorem foldl_stepProfile (values : List (Option JSON)) :
    ∀ p : TypeProfile,
      (values.foldl stepProfile p).hasNumber = (p.hasNumber || values.any isNumV)
      ∧ (values.foldl stepProfile p).hasBoolean = (p.hasBoolean || values.any isBoolV)
      ∧ (values.foldl stepProfile p).hasString = (p.hasString || values.any isStringishV)
      ∧ (values.foldl stepProfile p).allIntegers = (p.allIntegers && values.all finiteIntegerIfNum)
      ∧ (values.foldl stepProfile p).maxLength = max p.maxLength (specMaxLen values) := by
  induction values with
  | nil => intro p; simp [specMaxLen]
  | cons v rest ih =>
      intro p
      obtain ⟨h1, h2, h3, h4, h5⟩ := ih (stepProfile p v)
      have s1 : (stepProfile p v).hasNumber = (p.hasNumber || isNumV v) := by
        cases v with
        | none => simp [stepProfile, isNumV]
        | some w => cases w <;> simp [stepProfile, isNumV]
      have s2 : (stepProfile p v).hasBoolean = (p.hasBoolean || isBoolV v) := by
        cases v with
        | none => simp [stepProfile, isBoolV]
        | some w => cases w <;> simp [stepProfile, isBoolV]
      have s3 : (stepProfile p v).hasString = (p.hasString || isStringishV v) := by
        cases v with
        | none => simp [stepProfile, isStringishV]
        | some w => cases w <;> simp [stepProfile, isStringishV]
      have s4 : (stepProfile p v).allIntegers = (p.allIntegers && finiteIntegerIfNum v) := by
        cases v with
        | none => simp [stepProfile, finiteIntegerIfNum]
        | some w =>
            cases w with
            | num n => cases n <;> simp [stepProfile, finiteIntegerIfNum, JSNum.isInteger, JSNum.isFinite]
            | _ => simp [stepProfile, finiteIntegerIfNum]
      have s5 : (stepProfile p v).maxLength = max p.maxLength (observedLen v) := by
        cases v with
        | none => simp [stepProfile, observedLen]
        | some w => cases w <;> simp [stepProfile, observedLen]
      have hm : specMaxLen (v :: rest) = max (observedLen v) (specMaxLen rest) := by
        rw [specMaxLen, List.foldl_cons, foldMax_shift]
        omega
      simp only [List.foldl_cons]
      refine ⟨?_, ?_, ?_, ?_, ?_⟩
      · rw [h1, s1, List.any_cons]
        cases p.hasNumber <;> simp
      · rw [h2, s2, List.any_cons]
        cases p.hasBoolean <;> simp
      · rw [h3, s3, List.any_cons]
        cases p.hasString <;> simp
      · rw [h4, s4, List.all_cons]
        cases p.allIntegers <;> simp
      · rw [h5, s5, hm]
        omega

/-- Claim C2 counterexample: a column whose only value is the empty string
has a non-null value whose maximum observed string length, 0, is at most
255, so the claim as stated predicts VARCHAR(255); the code returns TEXT
because its string branch checks maxLength = 0 first. -/
theorem claim_C2_counterexample :
    inferSQLType "c" [some (JSON.str "")] = "TEXT" ∧ "TEXT" ≠ "VARCHAR(255)" := by
  exact ⟨by decide, by decide⟩

/-- Claim C2 (amended): the inferred type of every column follows the
priority boolean, then numeric, then string, exactly as the claim states it,
except that the string type is TEXT (not VARCHAR(255)) whenever the maximum
observed string length is 0 - which covers both columns with zero non-null
values and columns whose strings are all empty. -/
theorem claim_C2_type_inference :
    ∀ (columnName : String) (values : List (Option JSON)),
      inferSQLType columnName values = specInferredType values := by
  intro columnName values
  obtain ⟨h1, h2, h3, h4, h5⟩ := foldl_stepProfile values initProfile
  simp only [inferSQLType, specInferredType]
  simp only [h1, h2, h3, h4, h5]
  simp [initProfile]

/-- Claim C4 counterexample: on the claim's own input, the code computes
nesting depth 3, while the depth rule as literally stated by the claim (a
primitive or null has its parent's depth, only visiting a child container
increments) yields only 2, so the claim as stated is inconsistent with the
code and with its own example. -/
theorem claim_C4_counterexample :
    (flatten (JSON.obj [("a", JSON.obj [("b", JSON.obj [("c", JSON.num (.int 1))])])])).maxNestingLevel = 3
    ∧ specDepthRule (JSON.obj [("a", JSON.obj [("b", JSON.obj [("c", JSON.num (.int 1))])])]) = 2
    ∧ (3 : Nat) ≠ 2 := by
  refine ⟨?_, ?_, by decide⟩
  · simp [flatten, getNestingLevel, levelFields]
  · simp [specDepthRule, ruleFields, ruleItems, isContainer]

/-- Claim C4 (amended): flattening the input with a at b at c = 1 reports
maximum nesting depth 3 and yields exactly one record with a_b_c = 1; in
general the reported depth equals the depth computed by the rule amended so
that visiting into any child - container, primitive or null alike -
increments the depth by one, the root starting at 0 and the result being the
maximum depth seen over the whole tree. -/
theorem claim_C4_depth_and_record :
    (∀ j : JSON, (flatten j).maxNestingLevel = specDepth j)
    ∧ flatten (JSON.obj [("a", JSON.obj [("b", JSON.obj [("c", JSON.num (.int 1))])])])
      = { data := [[("a_b_c", JSON.num (.int 1))]], maxNestingLevel := 3, objectCount := 1 } := by
  constructor
  · intro j
    show getNestingLevel j 0 = specDepth j
    rw [getNestingLevel_eq]
    omega
  · simp [flatten, explodeObject, explodeEntries, joinKey, setKey, hasKey, mergeNew,
      getNestingLevel, levelFields]

/-- Claim C8: on an empty record set, generateSQL returns the comment
placeholder and generateCSV returns empty text. Both embedded generators are
total Lean functions evaluated on every input, so neither can raise. -/
theorem claim_C8_empty_record_set :
    (∀ tableName now, generateSQL [] tableName now = "-- No data to convert")
    ∧ generateCSV [] = "" := by
  constructor
  · intro tableName now
    simp [generateSQL]
  · simp [generateCSV]

/-- Claim C10: a root empty array flattens to exactly one record whose single
field has the empty string as its column name, mapped to null; the fallback
key "value" used for a root null or primitive is not applied here. -/
theorem claim_C10_empty_root_array :
    (flatten (JSON.arr [])).data = [[("", JSON.null)]]
    ∧ (flatten (JSON.arr [])).objectCount = 1 := by
  constructor <;> simp [flatten, explodeObject, setKey, hasKey]

/-- Claim C6: CSV escaping. A null or missing field renders empty; any other
field is wrapped in double quotes with internal double quotes doubled
exactly when its string form contains a comma, a double quote, a line feed
or a carriage return, or begins with =, +, - or @, and is emitted as-is
otherwise; the value a,b renders quoted, and a value starting with =1+1
renders quoted but is neither executed nor stripped. -/
theorem claim_C6_csv_escaping :
    escapeCSVValue none = ""
    ∧ (∀ w : JSON, escapeCSVValue (some w) =
        if w.isNull then ""
        else if needsQuoting (csvString w) then "\"" ++ doubleDQuotes (csvString w) ++ "\""
        else csvString w)
    ∧ (∀ s : String, needsQuoting s = true ↔
        (',' ∈ s.data ∨ '"' ∈ s.data ∨ '\n' ∈ s.data ∨ '\r' ∈ s.data
          ∨ ∃ c, s.data.head? = some c ∧ (c = '=' ∨ c = '+' ∨ c = '-' ∨ c = '@')))
    ∧ escapeCSVValue (some (JSON.str "a,b")) = "\"a,b\""
    ∧ escapeCSVValue (some (JSON.str "=1+1")) = "\"=1+1\"" := by
  refine ⟨rfl, ?_, ?_, ?_, ?_⟩
  · intro w
    cases w <;> simp [escapeCSVValue, JSON.isNull]
  · intro s
    rw [needsQuoting]
    cases hs : s.data with
    | nil => simp
    | cons c cs => simp; tauto
  · simp [escapeCSVValue, csvString, jsToString, needsQuoting, doubleDQuotes]
    decide
  · simp [escapeCSVValue, csvString, jsToString, needsQuoting, doubleDQuotes]
    decide

/-- Claim C7: the rendering of every value in every INSERT statement follows
the claim's enumeration (sqlValueLiteral is the function generateSQL maps
over the columns of each record to build each VALUES list); the embedding is
total, so a non-finite number is never an error, it simply renders as NULL,
as the concrete generateSQL run with a NaN value and a missing column
shows. -/
theorem claim_C7_sql_value_rendering :
    (∀ v : Option JSON, sqlValueLiteral v = specSQLValueRender v)
    ∧ generateSQL [[("a", JSON.num .nan)], [("b", JSON.bool true)]] "t" "TS"
      = "-- SQL Generated: TS\n-- Table: t\n-- Records: 2\n\nCREATE TABLE \"t\" (\n  \"a\" DOUBLE PRECISION,\n  \"b\" BOOLEAN\n);\n\nINSERT INTO \"t\" (\"a\", \"b\") VALUES (NULL, NULL);\nINSERT INTO \"t\" (\"a\", \"b\") VALUES (NULL, TRUE);" := by
  constructor
  · intro v
    match v with
    | none => rfl
    | some JSON.null => rfl
    | some (JSON.num n) => cases hf : n.isFinite <;> simp [sqlValueLiteral, specSQLValueRender, hf]
    | some (JSON.bool b) => rfl
    | some (JSON.str s) => rfl
    | some (JSON.arr items) => rfl
    | some (JSON.obj fs) => rfl
  · simp [generateSQL, sanitizeTableName, isWordChar, collectSQLColumns, inferSQLType,
      stepProfile, initProfile, escapeIdentifier, sqlValueLiteral, lookupKey, JSNum.isFinite]
    decide

/-- Membership after folding one record's keys into a first-seen list. -/
theorem mem_addKeys : ∀ (ks : List String) (a : List String) (x : String),
    (x ∈ ks.foldl (fun a k => if a.contains k then a else a ++ [k]) a) ↔ x ∈ a ∨ x ∈ ks := by
  intro ks
  induction ks with
  | nil => intro a x; simp
  | cons k t ih =>
      intro a x
      rw [List.foldl_cons, ih]
      by_cases h : a.contains k = true
      · rw [if_pos h]
        have hk : k ∈ a := by simpa using h
        rw [List.mem_cons]
        constructor
        · rintro (hx | hx)
          · exact Or.inl hx
          · exact Or.inr (Or.inr hx)
        · rintro (hx | hx | hx)
          · exact Or.inl hx
          · subst hx; exact Or.inl hk
          · exact Or.inr hx
      · rw [if_neg h]
        rw [List.mem_cons]
        simp [List.mem_append]
        tauto

/-- Folding one record's keys into a duplicate-free first-seen list keeps it
duplicate-free. -/
theorem nodup_addKeys : ∀ (ks : List String) (a : List String), a.Nodup →
    (ks.foldl (fun a k => if a.contains k then a else a ++ [k]) a).Nodup := by
  intro ks
  induction ks with
  | nil => intro a ha; exact ha
  | cons k t ih =>
      intro a ha
      rw [List.foldl_cons]
      refine ih _ ?_
      by_cases h : a.contains k = true
      · rw [if_pos h]; exact ha
      · rw [if_neg h]
        refine List.Nodup.append ha (List.nodup_singleton k) ?_
        intro x hx hmem
        rw [List.mem_singleton] at hmem
        subst hmem
        exact h (by simpa using hx)

/-- A name appears in the first-seen column list exactly when some record of
the record set has a field of that name. -/
theorem mem_specFirstSeen_aux : ∀ (data : List Record) (a : List String) (x : String),
    (x ∈ data.foldl (fun acc r =>
        (r.map Prod.fst).foldl (fun a k => if a.contains k then a else a ++ [k]) acc) a)
      ↔ x ∈ a ∨ ∃ r ∈ data, ∃ p ∈ r, p.1 = x := by
  intro data
  induction data with
  | nil => intro a x; simp
  | cons r t ih =>
      intro a x
      rw [List.foldl_cons, ih, mem_addKeys]
      constructor
      · rintro ((hx | hx) | hx)
        · exact Or.inl hx
        · obtain ⟨p, hp, hpx⟩ := List.mem_map.mp hx
          exact Or.inr ⟨r, List.mem_cons_self r t, p, hp, hpx⟩
        · obtain ⟨r2, hr2, hrest⟩ := hx
          exact Or.inr ⟨r2, List.mem_cons_of_mem r hr2, hrest⟩
      · rintro (hx | ⟨r2, hr2, p, hp, hpx⟩)
        · exact Or.inl (Or.inl hx)
        · rcases List.mem_cons.mp hr2 with h | h
          · subst h
            exact Or.inl (Or.inr (List.mem_map.mpr ⟨p, hp, hpx⟩))
          · exact Or.inr ⟨r2, h, p, hp, hpx⟩

/-- The first-seen column list never repeats a name. -/
theorem nodup_specFirstSeen_aux : ∀ (data : List Record) (a : List String), a.Nodup →
    (data.foldl (fun acc r =>
        (r.map Prod.fst).foldl (fun a k => if a.contains k then a else a ++ [k]) acc) a).Nodup := by
  intro data
  induction data with
  | nil => intro a ha; exact ha
  | cons r t ih =>
      intro a ha
      rw [List.foldl_cons]
      exact ih _ (nodup_addKeys _ _ ha)

/-- Projecting the Map-based column collection of generateCSV onto its keys
agrees, record by record, with the plain first-seen key fold. -/
theorem columnMapRecord_fst : ∀ (r : Record) (m : List (String × Nat)),
    (r.foldl (fun m2 p =>
        if m2.any (fun q => q.1 == p.1) then m2 else m2 ++ [(p.1, m2.length)]) m).map Prod.fst
      = (r.map Prod.fst).foldl (fun a k => if a.contains k then a else a ++ [k])
          (m.map Prod.fst) := by
  intro r
  induction r with
  | nil => intro m; simp
  | cons p t ih =>
      intro m
      rw [List.foldl_cons, List.map_cons, List.foldl_cons]
      have hc : (m.map Prod.fst).contains p.1 = m.any (fun q => q.1 == p.1) := by
        rw [Bool.eq_iff_iff]
        simp [List.any_eq_true]
      by_cases h : m.any (fun q => q.1 == p.1) = true
      · rw [if_pos h, if_pos (by rw [hc]; exact h), ih]
      · rw [if_neg h, if_neg (fun hcon => h (by rw [← hc]; exact hcon)), ih]
        simp

/-- Claim C9: both generators order their columns by first appearance across
the whole record set - the Set-based collection of generateSQL and the
Map-based collection of generateCSV both equal the first-seen order, which
contains exactly one entry per name observed anywhere; a record set whose
first record lists b before a yields the header b,a (never the alphabetical
a,b). -/
theorem claim_C9_column_order :
    (∀ data : List Record, collectSQLColumns data = specFirstSeen data)
    ∧ (∀ data : List Record, collectCSVHeaders data = specFirstSeen data)
    ∧ (∀ data : List Record, (specFirstSeen data).Nodup)
    ∧ (∀ (data : List Record) (k : String),
        (k ∈ specFirstSeen data) ↔ ∃ r ∈ data, ∃ p ∈ r, p.1 = k)
    ∧ collectSQLColumns [[("b", JSON.num (.int 1)), ("a", JSON.num (.int 2))],
        [("c", JSON.bool true), ("a", JSON.null)]] = ["b", "a", "c"]
    ∧ generateCSV [[("b", JSON.num (.int 1)), ("a", JSON.num (.int 2))]] = "b,a\n1,2" := by
  refine ⟨?_, ?_, ?_, ?_, ?_, ?_⟩
  · intro data
    simp [collectSQLColumns, specFirstSeen, List.foldl_map]
  · intro data
    have haux : ∀ (d : List Record) (m : List (String × Nat)),
        (d.foldl (fun m r => r.foldl (fun m2 p =>
            if m2.any (fun q => q.1 == p.1) then m2 else m2 ++ [(p.1, m2.length)]) m) m).map Prod.fst
          = d.foldl (fun acc r =>
              (r.map Prod.fst).foldl (fun a k => if a.contains k then a else a ++ [k]) acc)
              (m.map Prod.fst) := by
      intro d
      induction d with
      | nil => intro m; rfl
      | cons r t ih =>
          intro m
          rw [List.foldl_cons, List.foldl_cons, ih, columnMapRecord_fst]
    rw [collectCSVHeaders, collectColumnMap, specFirstSeen, haux]
    rfl
  · intro data
    exact nodup_specFirstSeen_aux data [] List.nodup_nil
  · intro data k
    rw [specFirstSeen, mem_specFirstSeen_aux]
    simp
  · decide
  · simp [generateCSV, collectCSVHeaders, collectColumnMap, escapeCSVValue, csvString,
      needsQuoting, jsToString, JSNum.toText, lookupKey]
    decide


/-- arrayFreeFields is the pointwise condition over the entries. -/
theorem arrayFreeFields_iff : ∀ (l : List (String × JSON)),
    arrayFreeFields l = true ↔ ∀ e ∈ l, arrayFree e.2 = true := by
  intro l
  induction l with
  | nil => simp [arrayFreeFields]
  | cons e t ih =>
      rw [arrayFreeFields, Bool.and_eq_true, ih]
      constructor
      · rintro ⟨h1, h2⟩ e2 he2
        rcases List.mem_cons.mp he2 with h | h
        · subst h; exact h1
        · exact h2 e2 h
      · intro h
        exact ⟨h e (by simp), fun e2 he2 => h e2 (by simp [he2])⟩

/-- Entries whose values are array-free only update the accumulated base
record: they pass the nested-explosion list through unchanged, provided each
object-valued entry explodes to a single record. -/
theorem entries_passthrough_aux : ∀ (l1 : List (String × JSON)),
    (∀ e ∈ l1, ∀ (ofs : List (String × JSON)), e.2 = JSON.obj ofs →
      ∀ (pfx2 : String) (ctx2 : Record) (sp2 : String) (lvl2 : Nat),
        ∃ b, explodeObject (JSON.obj ofs) pfx2 ctx2 sp2 lvl2 = [b]) →
    (∀ e ∈ l1, arrayFree e.2 = true) →
    ∀ (l2 : List (String × JSON)) (pfx sp : String) (lvl : Nat) (base : Record)
      (nested : List Record),
      ∃ b', explodeEntries (l1 ++ l2) pfx sp lvl base nested
        = explodeEntries l2 pfx sp lvl b' nested := by
  intro l1
  induction l1 with
  | nil => intro _ _ l2 pfx sp lvl base nested; exact ⟨base, rfl⟩
  | cons e t ih =>
      intro hIH haf l2 pfx sp lvl base nested
      obtain ⟨key, value⟩ := e
      have hIHt : ∀ e2 ∈ t, ∀ (ofs : List (String × JSON)), e2.2 = JSON.obj ofs →
          ∀ (pfx2 : String) (ctx2 : Record) (sp2 : String) (lvl2 : Nat),
            ∃ b, explodeObject (JSON.obj ofs) pfx2 ctx2 sp2 lvl2 = [b] :=
        fun e2 he2 => hIH e2 (by simp [he2])
      have haft : ∀ e2 ∈ t, arrayFree e2.2 = true := fun e2 he2 => haf e2 (by simp [he2])
      rw [List.cons_append]
      cases value with
      | null =>
          simp only [explodeEntries]
          exact ih hIHt haft l2 pfx sp lvl _ nested
      | bool b2 =>
          simp only [explodeEntries]
          exact ih hIHt haft l2 pfx sp lvl _ nested
      | num n2 =>
          simp only [explodeEntries]
          exact ih hIHt haft l2 pfx sp lvl _ nested
      | str s2 =>
          simp only [explodeEntries]
          exact ih hIHt haft l2 pfx sp lvl _ nested
      | arr items =>
          exfalso
          have hbad := haf (key, JSON.arr items) (by simp)
          simp [arrayFree] at hbad
      | obj ofs =>
          obtain ⟨r0, hr0⟩ := hIH (key, JSON.obj ofs) (by simp) ofs rfl
            (joinKey pfx key) base sp lvl
          simp only [explodeEntries]
          rw [hr0]
          simp only [List.length_singleton, gt_iff_lt, lt_self_iff_false, if_false]
          exact ih hIHt haft l2 pfx sp lvl _ nested

/-- An array-free object explodes, from any context, to exactly one record. -/
theorem arrayFree_obj_singleton (fs : List (String × JSON))
    (haf : ∀ e ∈ fs, arrayFree e.2 = true) (pfx : String) (ctx : Record)
    (sp : String) (lvl : Nat) :
    ∃ b, explodeObject (JSON.obj fs) pfx ctx sp lvl = [b] := by
  obtain ⟨b, hb⟩ := entries_passthrough_aux fs
    (fun e he ofs heq pfx2 ctx2 sp2 lvl2 =>
      arrayFree_obj_singleton ofs
        (by
          have h2 := haf e he
          rw [heq, arrayFree] at h2
          exact (arrayFreeFields_iff ofs).mp h2) pfx2 ctx2 sp2 lvl2)
    haf [] pfx sp lvl ctx []
  rw [List.append_nil] at hb
  refine ⟨b, ?_⟩
  simp only [explodeObject]
  rw [hb]
  simp [explodeEntries]
termination_by sizeOf fs
decreasing_by
  have h1 := List.sizeOf_lt_of_mem he
  have h2 : sizeOf e.2 < sizeOf e := by
    cases e with
    | mk a b => simp only [Prod.mk.sizeOf_spec]; omega
  rw [heq] at h2
  simp only [JSON.obj.sizeOf_spec] at h2
  omega

/-- Each element of an object array that is itself an array-free object
contributes exactly one record to the item loop. -/
theorem explodeItems_objAF_length : ∀ (items : List JSON),
    (∀ x ∈ items, ∃ fs, x = JSON.obj fs ∧ arrayFree x = true) →
    ∀ (idx : Nat) (pfx : String) (ctx : Record) (sp : String) (lvl : Nat),
      (explodeItems items idx pfx ctx sp lvl).length = items.length := by
  intro items
  induction items with
  | nil => intro _ idx pfx ctx sp lvl; simp [explodeItems]
  | cons x t ih =>
      intro h idx pfx ctx sp lvl
      obtain ⟨fs, hx, haf⟩ := h x (by simp)
      subst hx
      have haf2 : ∀ e ∈ fs, arrayFree e.2 = true := by
        rw [arrayFree] at haf
        exact (arrayFreeFields_iff fs).mp haf
      obtain ⟨b, hb⟩ := arrayFree_obj_singleton fs haf2 pfx
        (setKey ctx (if pfx == "" then "_index_level_" ++ toString lvl else pfx ++ "_index")
          (.num (.int (Int.ofNat idx))))
        (if sp == "" then (if pfx == "" then "root" else pfx) else sp) (lvl + 1)
      simp only [explodeItems, List.length_append]
      rw [hb, ih (fun y hy => h y (by simp [hy])) (idx + 1) pfx ctx sp lvl]
      simp only [List.length_cons, List.length_nil]
      omega

/-- A nonempty array of array-free objects explodes to exactly one record
per element. -/
theorem explode_objArray_length (items : List JSON) (hne : items ≠ [])
    (hobj : ∀ x ∈ items, ∃ fs, x = JSON.obj fs ∧ arrayFree x = true)
    (pfx : String) (ctx : Record) (sp : String) (lvl : Nat) :
    (explodeObject (JSON.arr items) pfx ctx sp lvl).length = items.length := by
  cases items with
  | nil => exact absurd rfl hne
  | cons x t =>
      have hlen := explodeItems_objAF_length (x :: t) hobj 0 pfx ctx sp lvl
      have hxobj := hobj x (by simp)
      obtain ⟨fs, hx, haf⟩ := hxobj
      have hallprim : ((x :: t).all isPrimOrNull) = false := by
        rw [List.all_cons, hx]
        simp [isPrimOrNull]
      have hne2 : explodeItems (x :: t) 0 pfx ctx sp lvl ≠ [] := by
        intro hc
        rw [hc] at hlen
        simp at hlen
      simp only [explodeObject, List.isEmpty_cons, hallprim]
      rw [if_neg (by simp), if_neg (by simp), if_neg (by simpa [List.isEmpty_iff] using hne2)]
      exact hlen

/-- Processing an entry holding a nonempty array of array-free objects
appends exactly one nested record per array element and leaves the base
record unchanged. -/
theorem explodeEntries_objArray_step (key : String) (items : List JSON) (hne : items ≠ [])
    (hobj : ∀ x ∈ items, ∃ fs, x = JSON.obj fs ∧ arrayFree x = true)
    (l2 : List (String × JSON)) (pfx sp : String) (lvl : Nat) (base : Record)
    (nested : List Record) :
    ∃ recs : List Record,
      explodeEntries ((key, JSON.arr items) :: l2) pfx sp lvl base nested
        = explodeEntries l2 pfx sp lvl base (nested ++ recs)
      ∧ recs.length = items.length := by
  cases items with
  | nil => exact absurd rfl hne
  | cons x t =>
      obtain ⟨fs, hx, haf⟩ := hobj x (by simp)
      have hallprim : ((x :: t).all isPrimOrNull) = false := by
        rw [List.all_cons, hx]
        simp [isPrimOrNull]
      refine ⟨explodeObject (JSON.arr (x :: t)) (joinKey pfx key) base
        (if sp == "" then joinKey pfx key else sp) (lvl + 1), ?_, ?_⟩
      · simp only [explodeEntries, List.isEmpty_cons, hallprim]
        rw [if_neg (by simp), if_neg (by simp)]
      · exact explode_objArray_length (x :: t) (by simp) hobj _ _ _ _

/-- Claim C1: union semantics. An object whose fields are array-free except
for exactly two nonempty sibling arrays of array-free objects, of lengths N
and M, flattens to exactly N+M records - a union, never the N by M product;
and the Acme example yields exactly the 3 records of the claim (records
shown in the code's insertion order; as mappings they are the claim's). -/
theorem claim_C1_union_semantics :
    (∀ (pre mid post : List (String × JSON)) (k1 k2 : String) (xs ys : List JSON),
      (∀ e ∈ pre, arrayFree e.2 = true) →
      (∀ e ∈ mid, arrayFree e.2 = true) →
      (∀ e ∈ post, arrayFree e.2 = true) →
      xs ≠ [] → (∀ x ∈ xs, ∃ fs, x = JSON.obj fs ∧ arrayFree x = true) →
      ys ≠ [] → (∀ y ∈ ys, ∃ fs, y = JSON.obj fs ∧ arrayFree y = true) →
      (flatten (JSON.obj (pre ++ (k1, JSON.arr xs) :: mid ++ (k2, JSON.arr ys) :: post))).data.length
        = xs.length + ys.length)
    ∧ (flatten (JSON.obj [("company", JSON.str "Acme"),
        ("users", JSON.arr [JSON.obj [("id", JSON.num (.int 1))], JSON.obj [("id", JSON.num (.int 2))]]),
        ("orders", JSON.arr [JSON.obj [("id", JSON.str "A")]])])).data
      = [[("company", JSON.str "Acme"), ("users_index", JSON.num (.int 0)), ("users_id", JSON.num (.int 1))],
         [("company", JSON.str "Acme"), ("users_index", JSON.num (.int 1)), ("users_id", JSON.num (.int 2))],
         [("company", JSON.str "Acme"), ("orders_index", JSON.num (.int 0)), ("orders_id", JSON.str "A")]] := by
  constructor
  · intro pre mid post k1 k2 xs ys hpre hmid hpost hxs hxsobj hys hysobj
    have mkIH : ∀ (l : List (String × JSON)), (∀ e ∈ l, arrayFree e.2 = true) →
        ∀ e ∈ l, ∀ (ofs : List (String × JSON)), e.2 = JSON.obj ofs →
          ∀ (pfx2 : String) (ctx2 : Record) (sp2 : String) (lvl2 : Nat),
            ∃ b, explodeObject (JSON.obj ofs) pfx2 ctx2 sp2 lvl2 = [b] := by
      intro l hl e he ofs heq pfx2 ctx2 sp2 lvl2
      refine arrayFree_obj_singleton ofs ?_ pfx2 ctx2 sp2 lvl2
      have h2 := hl e he
      rw [heq, arrayFree] at h2
      exact (arrayFreeFields_iff ofs).mp h2
    show (explodeObject (JSON.obj (pre ++ (k1, JSON.arr xs) :: mid ++ (k2, JSON.arr ys) :: post))
        "" [] "" 0).length = xs.length + ys.length
    obtain ⟨b1, hb1⟩ := entries_passthrough_aux pre (mkIH pre hpre) hpre
      ((k1, JSON.arr xs) :: mid ++ (k2, JSON.arr ys) :: post) "" "" 0 [] []
    obtain ⟨recs1, hrecs1, hlen1⟩ := explodeEntries_objArray_step k1 xs hxs hxsobj
      (mid ++ (k2, JSON.arr ys) :: post) "" "" 0 b1 []
    obtain ⟨b2, hb2⟩ := entries_passthrough_aux mid (mkIH mid hmid) hmid
      ((k2, JSON.arr ys) :: post) "" "" 0 b1 ([] ++ recs1)
    obtain ⟨recs2, hrecs2, hlen2⟩ := explodeEntries_objArray_step k2 ys hys hysobj
      post "" "" 0 b2 ([] ++ recs1)
    obtain ⟨b3, hb3⟩ := entries_passthrough_aux post (mkIH post hpost) hpost
      [] "" "" 0 b2 (([] ++ recs1) ++ recs2)
    rw [List.append_nil] at hb3
    simp only [explodeObject]
    simp only [List.cons_append, List.append_assoc, List.nil_append] at hb1 hrecs1 hb2 hrecs2 hb3 ⊢
    rw [hb1, hrecs1, hb2, hrecs2, hb3]
    simp only [explodeEntries, List.nil_append]
    have hlen : (recs1 ++ recs2).length = xs.length + ys.length := by
      rw [List.length_append, hlen1, hlen2]
    rw [if_neg]
    · rw [List.length_map, hlen]
    · intro hc
      rw [List.isEmpty_iff] at hc
      have h0 : (recs1 ++ recs2).length = 0 := by rw [hc]; rfl
      rw [hlen] at h0
      cases xs with
      | nil => exact hxs rfl
      | cons a b => simp at h0
  · simp [flatten, explodeObject, explodeEntries, joinKey, explodeItems, joinPrims, jsToString,
      isPrimOrNull, setKey, hasKey, JSON.isNull, JSNum.toText, spreadInto, mergeNew]

/-- Witness for claim C1 at a concrete input: one sibling array of one
object and one of two objects produce exactly 1 + 2 records. -/
theorem claim_C1_union_semantics_witness :
    (flatten (JSON.obj ([] ++ ("users", JSON.arr [JSON.obj [("u", JSON.num (.int 1))]])
        :: [] ++ ("orders", JSON.arr [JSON.obj [("o", JSON.num (.int 2))],
            JSON.obj [("o", JSON.num (.int 3))]]) :: []))).data.length = 1 + 2 := by
  have h := claim_C1_union_semantics.1 [] [] [] "users" "orders"
    [JSON.obj [("u", JSON.num (.int 1))]]
    [JSON.obj [("o", JSON.num (.int 2))], JSON.obj [("o", JSON.num (.int 3))]]
    (by simp) (by simp) (by simp) (by simp)
    (by
      intro x hx
      rw [List.mem_singleton] at hx
      subst hx
      exact ⟨_, rfl, by simp [arrayFree, arrayFreeFields]⟩)
    (by simp)
    (by
      intro y hy
      rcases List.mem_cons.mp hy with h | h
      · subst h
        exact ⟨_, rfl, by simp [arrayFree, arrayFreeFields]⟩
      · rw [List.mem_singleton] at h
        subst h
        exact ⟨_, rfl, by simp [arrayFree, arrayFreeFields]⟩)
  simpa using h

